import Mathlib

/-!
Verification of the assho host-manager core: a shallow embedding of its
data model (hosts, groups, history), the tree projection that flattens the
group/host/container hierarchy into display rows, the snapshot/rollback
transactional mutations, the config load/save dispatch, and the external
SSH-config parser/importer, together with theorems about the specified
properties.

Conventions of the embedding:
- Go slices become `List`, Go strings become `String`, `int64` becomes `Int`.
- Go's mutation-in-place becomes explicit state passing on `AppState`.
- Fallible persistence (`saveConfig`) is modelled by an `Option String`
  parameter (`none` = save succeeded, `some e` = save failed with error e).
- Randomness (`newHostID`) and the wall clock (`time.Now`) are modelled as
  explicit parameters.
- External decoders (`encoding/json`) and the OS keychain are modelled as
  function parameters, since they are library calls outside the repository.
-/

namespace Assho

/-- Go struct `Group` (id, name, expanded). -/
structure Group where
  id : String
  name : String
  expanded : Bool
deriving DecidableEq, Repr

/-- The scalar fields of Go struct `Host` (`hostAlias` embeds the Go field
`Alias`); the recursive `Containers` field lives in `Host` below. -/
structure HostData where
  id : String
  hostAlias : String
  hostname : String
  user : String
  port : String
  identityFile : String
  password : String
  passwordRef : String
  groupID : String
  isContainer : Bool
  expanded : Bool
  parentID : String
  listIndent : Nat
deriving DecidableEq, Repr

/-- Go struct `Host`: scalar fields plus the nested `Containers` list. -/
inductive Host where
  | mk (data : HostData) (containers : List Host)
deriving Repr

def Host.data : Host → HostData
  | .mk d _ => d

def Host.containers : Host → List Host
  | .mk _ c => c

/-- Go struct `HistoryEntry` (host_id, alias, timestamp). -/
structure HistoryEntry where
  hostID : String
  hostAlias : String
  timestamp : Int
deriving DecidableEq, Repr

/-- Go `list.Item` as stored in the UI list: either a `Host` value or a
`groupItem` wrapping a `Group`. -/
inductive Item where
  | hostRow (h : Host)
  | groupRow (g : Group)
deriving Repr

def Item.isGroupRow : Item → Bool
  | .groupRow _ => true
  | .hostRow _ => false

/-- The mutable entity model of Go struct `model`: `rawGroups`, `rawHosts`
and `history` (the fields snapshotted and restored by the transactional
store). -/
structure AppState where
  rawGroups : List Group
  rawHosts : List Host
  history : List HistoryEntry
deriving Repr

/-- Character-level embedding of Go `strings.ToLower` (the data is ASCII). -/
def lowerStr (s : String) : String := String.mk (s.data.map Char.toLower)

/-- Character-level embedding of Go `strings.TrimSpace`. -/
def trimStr (s : String) : String :=
  String.mk (((s.data.dropWhile Char.isWhitespace).reverse.dropWhile Char.isWhitespace).reverse)

/-- Go `strings.HasPrefix(line, "#")`. -/
def startsWithHash (s : String) : Bool :=
  match s.data with
  | c :: _ => c == '#'
  | [] => false

/-- Go `strings.EqualFold`, restricted to the ASCII folding the data uses. -/
def eqFold (s t : String) : Bool := lowerStr s == lowerStr t

/-- Word accumulator for `fields`. -/
def fieldsAux : List Char → List Char → List String
  | [], acc => if acc.isEmpty then [] else [String.mk acc.reverse]
  | c :: rest, acc =>
    if c.isWhitespace then
      if acc.isEmpty then fieldsAux rest [] else String.mk acc.reverse :: fieldsAux rest []
    else fieldsAux rest (c :: acc)

/-- Go `strings.Fields`: split on whitespace runs, dropping empty parts. -/
def fields (s : String) : List String := fieldsAux s.data []

/-- Go `isWildcard` (sshconfig.go): alias contains a `*` or `?` glob char. -/
def isWildcard (a : String) : Bool := a.data.any (fun c => c == '*' || c == '?')

/-- Go `splitDirective` (sshconfig.go): split an SSH-config line into keyword
and argument, at the first `=` if present, else at the first space. -/
def splitDirective (line : String) : String × String :=
  let cs := line.data
  match cs.findIdx? (fun c => c == '=') with
  | some idx => (trimStr (String.mk (cs.take idx)), trimStr (String.mk (cs.drop (idx + 1))))
  | none =>
    match cs.findIdx? (fun c => c == ' ') with
    | some idx => (String.mk (cs.take idx), trimStr (String.mk (cs.drop (idx + 1))))
    | none => (line, "")

/-- A host value re-emitted with a display indent, as the projection loops do
before appending a host to `items`. -/
def reindexHost (indent : Nat) (h : Host) : Host :=
  Host.mk { h.data with listIndent := indent } h.containers

def hostRowAt (indent : Nat) (h : Host) : Item :=
  Item.hostRow (reindexHost indent h)

/-- The container rows a host contributes when expanded: each container gets
`ParentID` set to the host and the given indent (flattenHosts inner loops). -/
def containerRows (parent : Host) (indent : Nat) : List Item :=
  parent.containers.map fun c =>
    Item.hostRow (Host.mk { c.data with parentID := parent.data.id, listIndent := indent } c.containers)

/-- One iteration of the first loop of Go `flattenHosts`: an ungrouped host
row (indent 0) plus its containers (indent 1) if the host is expanded;
a grouped host contributes nothing here. -/
def emitUngrouped (h : Host) : List Item :=
  if h.data.groupID != "" then []
  else hostRowAt 0 h :: (if h.data.expanded then containerRows h 1 else [])

/-- One iteration of the inner loop of the group section of Go
`flattenHosts`: a member row (indent 1) plus containers (indent 2) if
expanded; hosts of other groups contribute nothing. -/
def emitMember (g : Group) (h : Host) : List Item :=
  if h.data.groupID != g.id then []
  else hostRowAt 1 h :: (if h.data.expanded then containerRows h 2 else [])

/-- One iteration of the second loop of Go `flattenHosts`: the group row,
followed by its member rows only when the group is expanded. -/
def emitGroup (g : Group) (hosts : List Host) : List Item :=
  Item.groupRow g :: (if !g.expanded then [] else hosts.flatMap (emitMember g))

/-- Go `flattenHosts` (model.go): ungrouped hosts first in stored order, then
one section per group in stored order. -/
def flattenHosts (groups : List Group) (hosts : List Host) : List Item :=
  hosts.flatMap emitUngrouped ++ groups.flatMap (fun g => emitGroup g hosts)

/-- Extracts the host of a top-level (indent 0) host row. -/
def topHost : Item → Option Host
  | .hostRow h => if h.data.listIndent == 0 then some h else none
  | .groupRow _ => none

/-- Extracts the host of an indent-1 host row (a group-member row inside a
group section). -/
def indent1Host : Item → Option Host
  | .hostRow h => if h.data.listIndent == 1 then some h else none
  | .groupRow _ => none

/-- Go constant `maxHistoryEntries`. -/
def maxHistoryEntries : Nat := 50

/-- Go `recordHistory`: prepend the new entry, drop older entries of the same
host id, truncate to the cap.  `now` models `time.Now().Unix()`. -/
def recordHistory (now : Int) (hostID hostAlias : String)
    (history : List HistoryEntry) : List HistoryEntry :=
  let entry : HistoryEntry := ⟨hostID, hostAlias, now⟩
  let filtered := entry :: history.filter (fun h => h.hostID != hostID)
  if filtered.length > maxHistoryEntries then filtered.take maxHistoryEntries else filtered

/-- The insertion order of Go `rebuildHistoryList`'s `hostByID` map: each top
host followed by its containers. -/
def historyLookupHosts (hosts : List Host) : List Host :=
  hosts.flatMap (fun h => h :: h.containers)

/-- Go map lookup `hostByID[id]`: the last host inserted under that id wins. -/
def hostByID (hosts : List Host) (id : String) : Option Host :=
  (historyLookupHosts hosts).reverse.find? (fun h => h.data.id == id)

/-- The placeholder row Go `rebuildHistoryList` shows for an orphaned entry
whose host was deleted. -/
def deletedPlaceholder (e : HistoryEntry) : Host :=
  Host.mk { id := e.hostID, hostAlias := e.hostAlias ++ " (deleted)", hostname := "",
            user := "", port := "", identityFile := "", password := "", passwordRef := "",
            groupID := "", isContainer := false, expanded := false, parentID := "",
            listIndent := 0 } []

/-- The loop of Go `rebuildHistoryList`: walk the stored history newest
first, skip entries whose host id was already displayed, resolve each entry
to a live host or a deleted-placeholder, stop at 5 display items. -/
def rebuildItems (lookup : String → Option Host) :
    List HistoryEntry → List String → List Host → List Host
  | [], _, items => items
  | e :: rest, seen, items =>
    if seen.contains e.hostID then rebuildItems lookup rest seen items
    else
      let items' := items ++ [(lookup e.hostID).getD (deletedPlaceholder e)]
      if 5 ≤ items'.length then items'
      else rebuildItems lookup rest (e.hostID :: seen) items'

/-- Go `(*model).rebuildHistoryList`: computes the display items for the
history view.  It reads `m.history` and `m.rawHosts` and writes only the
history list widget, so the state is returned unchanged. -/
def rebuildHistoryList (m : AppState) : AppState × List Host :=
  (m, rebuildItems (hostByID m.rawHosts) m.history [] [])

/-- Go `findHostIndexByID`: index of the first host with the id, the `-1`
not-found sentinel becoming `none`. -/
def findHostIndexByID (hosts : List Host) (id : String) : Option Nat :=
  match hosts with
  | [] => none
  | h :: t => if h.data.id == id then some 0 else (findHostIndexByID t id).map (· + 1)

/-- Go `findGroupIndexByID`. -/
def findGroupIndexByID (groups : List Group) (id : String) : Option Nat :=
  match groups with
  | [] => none
  | g :: t => if g.id == id then some 0 else (findGroupIndexByID t id).map (· + 1)

/-- The search loop of Go `findGroupByName`: index of the first group whose
trimmed lower-cased name equals the target. -/
def findGroupByNameLoop (groups : List Group) (target : String) : Option Nat :=
  match groups with
  | [] => none
  | g :: t =>
    if lowerStr (trimStr g.name) == target then some 0
    else (findGroupByNameLoop t target).map (· + 1)

/-- Go `findGroupByName`: case-insensitive, trimmed; an empty target finds
nothing. -/
def findGroupByName (groups : List Group) (name : String) : Option Nat :=
  let target := lowerStr (trimStr name)
  if target == "" then none
  else findGroupByNameLoop groups target

/-- The swap `l[i], l[j] = l[j], l[i]` of the Go reorder code. -/
def swapAt {α : Type} (l : List α) (i j : Nat) : List α :=
  match l.get? i, l.get? j with
  | some a, some b => (l.set i b).set j a
  | _, _ => l

/-- The upward neighbor scan of Go `moveItem`: from `idx - 1` down to 0, the
first host with the given group membership (in Go the index is always in
range; `Option.any` renders the guard `m.rawHosts[i].GroupID == groupID`). -/
def scanUp (hosts : List Host) (gid : String) : Nat → Option Nat
  | 0 => none
  | i + 1 =>
    if (hosts.get? i).any (fun h => h.data.groupID == gid) then some i
    else scanUp hosts gid i

/-- The downward neighbor scan of Go `moveItem`: from `i` up to the end, the
first host with the given group membership. -/
def scanDown (hosts : List Host) (gid : String) (i : Nat) : Option Nat :=
  if hlt : i < hosts.length then
    if (hosts.get? i).any (fun h => h.data.groupID == gid) then some i
    else scanDown hosts gid (i + 1)
  else none
termination_by hosts.length - i
decreasing_by omega

/-- Result of a transactional mutation: the state after the call, the
surfaced error (Go returns an error or a status string; `none` embeds the
empty message), and whether the operation reached its `m.save()` call. -/
structure MutResult where
  state : AppState
  err : Option String
  saved : Bool
deriving Repr

/-- Go `(*model).moveItem`: snapshot, swap with the computed neighbor,
persist, roll back to the snapshot on save failure; silent no-op when there
is no neighbor.  `sel` is the selected list item, `saveErr` the outcome of
`m.save()`. -/
def moveItem (m : AppState) (sel : Option Item) (direction : Int)
    (saveErr : Option String) : MutResult :=
  match sel with
  | none => ⟨m, none, false⟩
  | some (.groupRow g) =>
    match findGroupIndexByID m.rawGroups g.id with
    | none => ⟨m, none, false⟩
    | some idx =>
      let newIdx : Int := (idx : Int) + direction
      if newIdx < 0 ∨ (m.rawGroups.length : Int) ≤ newIdx then ⟨m, none, false⟩
      else
        let snapshot := m
        let m' := { m with rawGroups := swapAt m.rawGroups idx newIdx.toNat }
        match saveErr with
        | some e => ⟨snapshot, some ("Failed to reorder: " ++ e), true⟩
        | none => ⟨m', none, true⟩
  | some (.hostRow item) =>
    if item.data.isContainer then ⟨m, none, false⟩
    else
      match findHostIndexByID m.rawHosts item.data.id with
      | none => ⟨m, none, false⟩
      | some idx =>
        let gid := ((m.rawHosts.get? idx).map (fun h => h.data.groupID)).getD ""
        let neighborIdx :=
          if direction < 0 then scanUp m.rawHosts gid idx
          else scanDown m.rawHosts gid (idx + 1)
        match neighborIdx with
        | none => ⟨m, none, false⟩
        | some n =>
          let snapshot := m
          let m' := { m with rawHosts := swapAt m.rawHosts idx n }
          match saveErr with
          | some e => ⟨snapshot, some ("Failed to reorder: " ++ e), true⟩
          | none => ⟨m', none, true⟩

/-- The form fields and group-picker state `saveFromForm` reads from the
model: input values 0-6, `groupOptions`, `groupIndex`, `groupCustom`. -/
structure FormState where
  hostAlias : String
  hostname : String
  user : String
  port : String
  identityFile : String
  password : String
  groupText : String
  groupOptions : List String
  groupIndex : Nat
  groupCustom : Bool

/-- Replace the first host with the given id (the update-and-break loop of
`saveFromForm`'s edit branch). -/
def updateFirstHost : List Host → String → (Host → Host) → List Host
  | [], _, _ => []
  | h :: t, id, f => if h.data.id == id then f h :: t else h :: updateFirstHost t id f

/-- Remove the first host with the given id (the delete-and-break loops of
the host-deletion handlers). -/
def removeFirstHost : List Host → String → List Host
  | [], _ => []
  | h :: t, id => if h.data.id == id then t else h :: removeFirstHost t id

/-- Remove the first group with the given id (`deleteGroupByID`'s loop). -/
def removeFirstGroup : List Group → String → List Group
  | [], _ => []
  | g :: t, id => if g.id == id then t else g :: removeFirstGroup t id

/-- Rename the first group with the given id (`updateGroupPrompt`'s rename
loop). -/
def renameFirstGroup : List Group → String → String → List Group
  | [], _, _ => []
  | g :: t, id, name =>
    if g.id == id then { g with name := name } :: t else g :: renameFirstGroup t id name

/-- Go `(*model).saveFromForm`: validate the alias, resolve the group
selection (possibly creating a group), build the new host record, update or
append it, persist, and roll back to the snapshot on save failure.
`newGroupID`/`newHostIDValue` model the `newHostID()` calls; `selectedHost`
models `m.selectedHost` (`none` = create, `some` = edit). -/
def saveFromForm (form : FormState) (selectedHost : Option Host)
    (newGroupID newHostIDValue : String) (saveErr : Option String)
    (m : AppState) : MutResult :=
  let snapshot := m
  let a := trimStr form.hostAlias
  if a == "" then ⟨m, some "alias is required", false⟩
  else if m.rawHosts.any (fun h =>
      eqFold (trimStr h.data.hostAlias) a &&
      (match selectedHost with
       | none => true
       | some sel => h.data.id != sel.data.id)) then
    ⟨m, some ("alias already exists: " ++ a), false⟩
  else
    let selectedOpt := form.groupOptions.getD form.groupIndex ""
    if !form.groupCustom && form.groupOptions.length > 0 && selectedOpt == "+ New group..." then
      ⟨m, some "new group selected but name not provided", false⟩
    else
      let groupName :=
        if !form.groupCustom then
          if form.groupOptions.length > 0 then
            if selectedOpt == "(none)" then "" else selectedOpt
          else ""
        else trimStr form.groupText
      let resolved :=
        if groupName == "" then (m.rawGroups, "")
        else
          match findGroupByName m.rawGroups groupName with
          | some idx => (m.rawGroups, ((m.rawGroups.get? idx).map Group.id).getD "")
          | none => (m.rawGroups ++ [⟨newGroupID, groupName, true⟩], newGroupID)
      let mkHostRecord := fun (id : String) (gid : String) (cs : List Host) (exp : Bool) =>
        Host.mk { id := id, hostAlias := a, hostname := form.hostname, user := form.user,
                  port := form.port, identityFile := form.identityFile,
                  password := form.password, passwordRef := "", groupID := gid,
                  isContainer := false, expanded := exp, parentID := "", listIndent := 0 } cs
      let rawHosts' :=
        match selectedHost with
        | some sel =>
          updateFirstHost m.rawHosts sel.data.id
            (fun h => mkHostRecord h.data.id resolved.2 h.containers h.data.expanded)
        | none => m.rawHosts ++ [mkHostRecord newHostIDValue resolved.2 [] false]
      let m' := { m with rawGroups := resolved.1, rawHosts := rawHosts' }
      match saveErr with
      | some e => ⟨snapshot, some ("failed to save changes: " ++ e), true⟩
      | none => ⟨m', none, true⟩

/-- The host-deletion mutation of the list and form handlers: snapshot,
remove the host, persist, roll back on save failure. -/
def deleteHostOp (id : String) (saveErr : Option String) (m : AppState) : MutResult :=
  let snapshot := m
  let m' := { m with rawHosts := removeFirstHost m.rawHosts id }
  match saveErr with
  | some e => ⟨snapshot, some ("Failed to save host deletion: " ++ e), true⟩
  | none => ⟨m', none, true⟩

/-- Go `(*model).deleteGroupByID`: snapshot, drop the group, clear the group
reference of its member hosts, persist, roll back on save failure. -/
def deleteGroupByID (gid : String) (saveErr : Option String) (m : AppState) : MutResult :=
  let snapshot := m
  let m' := { m with
    rawGroups := removeFirstGroup m.rawGroups gid,
    rawHosts := m.rawHosts.map (fun h =>
      if h.data.groupID == gid then Host.mk { h.data with groupID := "" } h.containers else h) }
  match saveErr with
  | some e => ⟨snapshot, some e, true⟩
  | none => ⟨m', none, true⟩

inductive GroupAction where
  | create
  | rename

/-- The enter branch of Go `updateGroupPrompt`: validate the name, reject
duplicates (a rename to the target's own name is allowed), then create or
rename the group with snapshot/rollback around the save. -/
def submitGroupPrompt (action : GroupAction) (targetID : String) (nameInput : String)
    (newID : String) (saveErr : Option String) (m : AppState) : MutResult :=
  let name := trimStr nameInput
  if name == "" then ⟨m, some "group name is required", false⟩
  else
    let dup :=
      match findGroupByName m.rawGroups name with
      | some idx =>
        match action with
        | .rename => !(((m.rawGroups.get? idx).map Group.id).getD "" == targetID)
        | .create => true
      | none => false
    if dup then ⟨m, some "group name already exists", false⟩
    else
      match action with
      | .create =>
        let snapshot := m
        let m' := { m with rawGroups := m.rawGroups ++ [⟨newID, name, true⟩] }
        match saveErr with
        | some e => ⟨snapshot, some ("failed to save group changes: " ++ e), true⟩
        | none => ⟨m', none, true⟩
      | .rename =>
        let snapshot := m
        let m' := { m with rawGroups := renameFirstGroup m.rawGroups targetID name }
        match saveErr with
        | some e => ⟨snapshot, some ("failed to save group changes: " ++ e), true⟩
        | none => ⟨m', none, true⟩

/-- The record-history mutation of the connect handlers: snapshot, record the
connection, persist, roll back on save failure. -/
def recordConnectionOp (id hostAlias : String) (now : Int) (saveErr : Option String)
    (m : AppState) : MutResult :=
  let snapshot := m
  let m' := { m with history := recordHistory now id hostAlias m.history }
  match saveErr with
  | some e => ⟨snapshot, some ("Failed to save history: " ++ e), true⟩
  | none => ⟨m', none, true⟩

/-- The externally triggered mutations of the transactional store, with the
nondeterministic inputs (fresh ids, the clock, the selection) made
explicit. -/
inductive MutationCmd where
  | createHost (form : FormState) (newGroupID newID : String)
  | editHost (selected : Host) (form : FormState) (newGroupID : String)
  | deleteHost (id : String)
  | createGroup (name newID : String)
  | renameGroup (targetID name : String)
  | deleteGroup (id : String)
  | move (sel : Option Item) (direction : Int)
  | recordConnection (id hostAlias : String) (now : Int)

/-- Dispatch of a mutation command to its handler, with the forced save
outcome threaded through. -/
def applyCmd (cmd : MutationCmd) (saveErr : Option String) (m : AppState) : MutResult :=
  match cmd with
  | .createHost form ngid nid => saveFromForm form none ngid nid saveErr m
  | .editHost sel form ngid => saveFromForm form (some sel) ngid "" saveErr m
  | .deleteHost id => deleteHostOp id saveErr m
  | .createGroup name nid => submitGroupPrompt .create "" name nid saveErr m
  | .renameGroup target name => submitGroupPrompt .rename target name "" saveErr m
  | .deleteGroup id => deleteGroupByID id saveErr m
  | .move sel d => moveItem m sel d saveErr
  | .recordConnection id a now => recordConnectionOp id a now saveErr m

/-- Go `shouldPersistPassword`: reads `ASSHO_STORE_PASSWORD`, falling back to
the legacy `ASSHI_STORE_PASSWORD`; empty means yes, and only the explicit
values 0/false/no disable password persistence. -/
def shouldPersistPassword (asshoStorePassword asshiStorePassword : String) : Bool :=
  let value := lowerStr (trimStr asshoStorePassword)
  let value := if value == "" then lowerStr (trimStr asshiStorePassword) else value
  if value == "" then true
  else value != "0" && value != "false" && value != "no"

mutual
/-- Per-host body of Go `sanitizeHostsForSave`: when the policy disables
password storage both secret fields are cleared; otherwise a non-empty
password is moved into the keychain (success modelled by `storeOk`);
containers are sanitized recursively. -/
def sanitizeHostForSave (persist : Bool) (storeOk : String → String → Bool) : Host → Host
  | .mk d cs =>
    let d' :=
      if !persist then { d with password := "", passwordRef := "" }
      else if d.password != "" then
        if storeOk d.id d.password then { d with passwordRef := d.id, password := "" } else d
      else d
    Host.mk d' (sanitizeHostsForSave persist storeOk cs)
/-- Go `sanitizeHostsForSave` over a host list: builds a sanitized copy,
leaving the input untouched. -/
def sanitizeHostsForSave (persist : Bool) (storeOk : String → String → Bool) :
    List Host → List Host
  | [] => []
  | h :: t => sanitizeHostForSave persist storeOk h :: sanitizeHostsForSave persist storeOk t
end

mutual
/-- Decidable check that a predicate holds of a host and, recursively, of
every nested container host. -/
def allHostsB (p : HostData → Bool) : Host → Bool
  | .mk d cs => p d && allHostsListB p cs
def allHostsListB (p : HostData → Bool) : List Host → Bool
  | [] => true
  | h :: t => allHostsB p h && allHostsListB p t
end

mutual
/-- Stated from the spec: the sanitized copy of a host under the
store-nothing policy is the host with its password and external-secret
reference emptied, recursively at every depth, and nothing else changed. -/
def scrubHost : Host → Host
  | .mk d cs => Host.mk { d with password := "", passwordRef := "" } (scrubHosts cs)
def scrubHosts : List Host → List Host
  | [] => []
  | h :: t => scrubHost h :: scrubHosts t
end

mutual
/-- Per-host body of Go `hydrateHostPasswords`: resolve an external secret
reference when the password is absent; recurse into containers. -/
def hydrateHostPassword (lookupSecret : String → Option String) : Host → Host
  | .mk d cs =>
    let d' :=
      if d.password == "" && d.passwordRef != "" then
        match lookupSecret d.passwordRef with
        | some secret => { d with password := secret }
        | none => d
      else d
    Host.mk d' (hydrateHostPasswords lookupSecret cs)
/-- Go `hydrateHostPasswords` over a host list. -/
def hydrateHostPasswords (lookupSecret : String → Option String) : List Host → List Host
  | [] => []
  | h :: t => hydrateHostPassword lookupSecret h :: hydrateHostPasswords lookupSecret t
end

/-- Outcome of `os.Open` on a config path. -/
inductive FileRead where
  | notExist
  | openError (e : String)
  | ok (content : String)

/-- Go struct `configFile`: the versioned on-disk document. -/
structure ConfigFile where
  version : Int
  groups : List Group
  hosts : List Host
  history : List HistoryEntry

/-- The value Go `loadConfig` returns: groups, hosts, history and error. -/
structure LoadResult where
  groups : List Group
  hosts : List Host
  history : List HistoryEntry
  error : Option String

/-- The seeded default host Go `loadConfig` returns when no config file
exists at either path. -/
def defaultLocalhost (freshID : String) : Host :=
  Host.mk { id := freshID, hostAlias := "Localhost", hostname := "127.0.0.1", user := "root",
            port := "22", identityFile := "", password := "", passwordRef := "", groupID := "",
            isContainer := false, expanded := false, parentID := "", listIndent := 0 } []

/-- The legacy-shape fallback of Go `loadConfig`: try the bare host-list
shape; else report the invalid-format error.  `decodeHostList` models
`json.Unmarshal` into `[]Host`. -/
def loadConfigHostList (decodeHostList : String → Option (List Host))
    (lookupSecret : String → Option String) (saveResult : Option String)
    (loadedFromLegacy : Bool) (contents : String) : LoadResult :=
  match decodeHostList contents with
  | some hosts =>
    if loadedFromLegacy then
      match saveResult with
      | some e =>
        ⟨[], hydrateHostPasswords lookupSecret hosts, [],
          some ("migrated legacy hosts but failed to persist new path: " ++ e)⟩
      | none => ⟨[], hydrateHostPasswords lookupSecret hosts, [], none⟩
    else ⟨[], hydrateHostPasswords lookupSecret hosts, [], none⟩
  | none => ⟨[], [], [], some "invalid config format"⟩

/-- The byte-decoding part of Go `loadConfig`: try the (versioned or
unversioned) document shape, fall back to the bare host list, else fail.
`decodeCfg` models `json.Unmarshal` into `configFile`. -/
def loadConfigBytes (decodeCfg : String → Option ConfigFile)
    (decodeHostList : String → Option (List Host))
    (lookupSecret : String → Option String) (saveResult : Option String)
    (loadedFromLegacy : Bool) (contents : String) : LoadResult :=
  match decodeCfg contents with
  | some cfg =>
    if cfg.version > 0 ∨ cfg.hosts.length > 0 ∨ cfg.groups.length > 0 then
      if loadedFromLegacy then
        match saveResult with
        | some e =>
          ⟨cfg.groups, hydrateHostPasswords lookupSecret cfg.hosts, cfg.history,
            some ("migrated legacy config but failed to persist new path: " ++ e)⟩
        | none => ⟨cfg.groups, hydrateHostPasswords lookupSecret cfg.hosts, cfg.history, none⟩
      else ⟨cfg.groups, hydrateHostPasswords lookupSecret cfg.hosts, cfg.history, none⟩
    else loadConfigHostList decodeHostList lookupSecret saveResult loadedFromLegacy contents
  | none => loadConfigHostList decodeHostList lookupSecret saveResult loadedFromLegacy contents

/-- Go `loadConfig`: open the canonical path; on not-exist fall back to the
legacy path; when both are missing, seed the default localhost entry; open
errors and undecodable bytes surface as errors. -/
def loadConfig (decodeCfg : String → Option ConfigFile)
    (decodeHostList : String → Option (List Host))
    (lookupSecret : String → Option String) (saveResult : Option String)
    (freshID : String) (canonical legacyFile : FileRead) : LoadResult :=
  match canonical with
  | .openError e => ⟨[], [], [], some e⟩
  | .ok contents =>
    loadConfigBytes decodeCfg decodeHostList lookupSecret saveResult false contents
  | .notExist =>
    match legacyFile with
    | .openError e => ⟨[], [], [], some e⟩
    | .notExist => ⟨[], [defaultLocalhost freshID], [], none⟩
    | .ok contents =>
      loadConfigBytes decodeCfg decodeHostList lookupSecret saveResult true contents

/-- A host block being accumulated by Go `parseSSHConfig`. -/
structure HostBlock where
  aliases : List String
  hostname : String
  user : String
  port : String
  identity : String
deriving DecidableEq, Repr

/-- The scanner state of Go `parseSSHConfig`: finished blocks, the block
being accumulated, and whether a Match block is being skipped. -/
structure ParseState where
  blocks : List HostBlock
  current : Option HostBlock
  inMatch : Bool
deriving DecidableEq, Repr

/-- Flushing the current block into the finished list (`blocks = append
(blocks, *current)` guarded by `current != nil`). -/
def flushBlock : Option HostBlock → List HostBlock
  | some b => [b]
  | none => []

/-- One iteration of the scanner loop of Go `parseSSHConfig`. -/
def lineStep (s : ParseState) (rawLine : String) : ParseState :=
  let line := trimStr rawLine
  if line == "" || startsWithHash line then s
  else
    let kw := lowerStr (splitDirective line).1
    let args := (splitDirective line).2
    if kw == "match" then
      { blocks := s.blocks ++ flushBlock s.current, current := none, inMatch := true }
    else if kw == "host" then
      let clean := (fields args).filter (fun x => !isWildcard x)
      if clean.isEmpty then
        { blocks := s.blocks ++ flushBlock s.current, current := none, inMatch := false }
      else
        { blocks := s.blocks ++ flushBlock s.current, current := some ⟨clean, "", "", "", ""⟩,
          inMatch := false }
    else if s.inMatch then s
    else
      match s.current with
      | none => s
      | some b =>
        if kw == "hostname" then { s with current := some { b with hostname := args } }
        else if kw == "user" then { s with current := some { b with user := args } }
        else if kw == "port" then { s with current := some { b with port := args } }
        else if kw == "identityfile" then { s with current := some { b with identity := args } }
        else s

/-- The full scanner loop over the input lines. -/
def processLines (s : ParseState) : List String → ParseState
  | [] => s
  | l :: rest => processLines (lineStep s l) rest

/-- The final flush after the scanner loop. -/
def finishParse (s : ParseState) : List HostBlock :=
  s.blocks ++ flushBlock s.current

/-- The keyword a line contributes, or `none` for blank and comment lines
(used only to state properties of `lineStep`). -/
def lineKeyword (rawLine : String) : Option String :=
  let line := trimStr rawLine
  if line == "" || startsWithHash line then none
  else some (lowerStr (splitDirective line).1)

/-- The Host record Go `parseSSHConfig` builds for one alias of a block:
the alias doubles as the address when none was given, and the port defaults
to 22. -/
def mkImportedHost (id a : String) (b : HostBlock) : Host :=
  Host.mk { id := id, hostAlias := a,
            hostname := if b.hostname == "" then a else b.hostname,
            user := b.user,
            port := if b.port == "" then "22" else b.port,
            identityFile := b.identity,
            password := "", passwordRef := "", groupID := "", isContainer := false,
            expanded := false, parentID := "", listIndent := 0 } []

/-- The conversion loop of Go `parseSSHConfig`: one Host per alias per
block, ids drawn from the `newHostID` supply in emission order. -/
def blocksToHosts (newID : Nat → String) (blocks : List HostBlock) : List Host :=
  (blocks.flatMap (fun b => b.aliases.map (fun a => (a, b)))).enum.map
    (fun p => mkImportedHost (newID p.1) p.2.1 p.2.2)

/-- Go `parseSSHConfig` on the lines of the external config text. -/
def parseSSHConfig (newID : Nat → String) (rawLines : List String) : List Host :=
  blocksToHosts newID (finishParse (processLines ⟨[], none, false⟩ rawLines))

/-- The dedup key of Go `importSSHConfig`: lower-cased trimmed alias. -/
def importKey (h : Host) : String := lowerStr (trimStr h.data.hostAlias)

/-- The filtering loop of Go `importSSHConfig`: skip a parsed host whose key
is already known; otherwise keep it and remember its key. -/
def importLoop (keys : List String) : List Host → List Host × Nat
  | [] => ([], 0)
  | h :: t =>
    if keys.contains (importKey h) then
      let r := importLoop keys t
      (r.1, r.2 + 1)
    else
      let r := importLoop (importKey h :: keys) t
      (h :: r.1, r.2)

/-- Go `importSSHConfig` with the file read and parse factored out: dedup
the parsed hosts against the existing aliases and within the batch,
returning the imported hosts and the skipped count. -/
def importSSHConfig (existing : List Host) (parsed : List Host) : List Host × Nat :=
  importLoop (existing.map importKey) parsed

/-- Builder for small example hosts used in concrete instantiations. -/
def mkSimpleHost (id hostAlias gid : String) (expanded : Bool) : Host :=
  Host.mk { id := id, hostAlias := hostAlias, hostname := "", user := "", port := "",
            identityFile := "", password := "", passwordRef := "", groupID := gid,
            isContainer := false, expanded := expanded, parentID := "", listIndent := 0 } []

/-- A host whose group reference `gX` matches no group. -/
def danglingHost : Host :=
  Host.mk { id := "h1", hostAlias := "web", hostname := "10.0.0.1", user := "root",
            port := "22", identityFile := "", password := "", passwordRef := "",
            groupID := "gX", isContainer := false, expanded := true, parentID := "",
            listIndent := 0 } []

/-- An example host list with one live host `h1`. -/
def exampleLiveHost : Host :=
  Host.mk { id := "h1", hostAlias := "web", hostname := "10.0.0.1", user := "root",
            port := "22", identityFile := "", password := "", passwordRef := "",
            groupID := "", isContainer := false, expanded := false, parentID := "",
            listIndent := 0 } []

/-- A state whose stored history holds one live entry and one orphaned entry
(its host id `h-gone` matches no live host), mirroring the repository's
rebuild-history test fixture. -/
def orphanHistoryState : AppState :=
  { rawGroups := [],
    rawHosts := [exampleLiveHost],
    history := [⟨"h1", "web", 3⟩, ⟨"h-gone", "old", 2⟩] }

/-- A nested example host carrying secrets at both levels. -/
def secretHost : Host :=
  Host.mk { id := "h1", hostAlias := "web", hostname := "10.0.0.1", user := "root",
            port := "22", identityFile := "", password := "pw1", passwordRef := "ref1",
            groupID := "", isContainer := false, expanded := false, parentID := "",
            listIndent := 0 }
    [Host.mk { id := "c1", hostAlias := "ctr", hostname := "ctr", user := "", port := "",
               identityFile := "", password := "pw2", passwordRef := "ref2", groupID := "",
               isContainer := true, expanded := false, parentID := "h1", listIndent := 0 } []]

/-- Well-formedness of a parsed host block: at least one alias survives and
none of the surviving aliases is a glob pattern. -/
def blockOK (b : HostBlock) : Prop :=
  b.aliases ≠ [] ∧ ∀ a ∈ b.aliases, isWildcard a = false

/-- Well-formedness of the scanner state: all finished blocks and the block
in progress are well-formed. -/
def stateOK (st : ParseState) : Prop :=
  (∀ b ∈ st.blocks, blockOK b) ∧ (∀ b, st.current = some b → blockOK b)

/-! ## Lemmas about the tree projection -/

@[simp] theorem Host.data_mk (d : HostData) (cs : List Host) : (Host.mk d cs).data = d := rfl

@[simp] theorem Host.containers_mk (d : HostData) (cs : List Host) :
    (Host.mk d cs).containers = cs := rfl

@[simp] lemma topHost_hostRowAt_zero (h : Host) :
    topHost (hostRowAt 0 h) = some (reindexHost 0 h) := by
  simp [hostRowAt, reindexHost, topHost]

@[simp] lemma topHost_hostRowAt_one (h : Host) : topHost (hostRowAt 1 h) = none := by
  simp [hostRowAt, reindexHost, topHost]

@[simp] lemma indent1Host_hostRowAt_one (h : Host) :
    indent1Host (hostRowAt 1 h) = some (reindexHost 1 h) := by
  simp [indent1Host, hostRowAt, reindexHost]

@[simp] lemma indent1Host_groupRow (g : Group) : indent1Host (Item.groupRow g) = none := rfl

@[simp] lemma topHost_groupRow (g : Group) : topHost (Item.groupRow g) = none := rfl

lemma mem_containerRows {parent : Host} {i : Nat} {r : Item}
    (hr : r ∈ containerRows parent i) :
    ∃ c : Host, r = Item.hostRow
      (Host.mk { c.data with parentID := parent.data.id, listIndent := i } c.containers) := by
  unfold containerRows at hr
  rcases List.mem_map.mp hr with ⟨c, _, rfl⟩
  exact ⟨c, rfl⟩

lemma topHost_containerRows {parent : Host} {i : Nat} (hi : i ≠ 0) {r : Item}
    (hr : r ∈ containerRows parent i) : topHost r = none := by
  rcases mem_containerRows hr with ⟨c, rfl⟩
  simp [topHost, hi]

lemma isGroupRow_containerRows {parent : Host} {i : Nat} {r : Item}
    (hr : r ∈ containerRows parent i) : r.isGroupRow = false := by
  rcases mem_containerRows hr with ⟨c, rfl⟩
  rfl

lemma emitUngrouped_no_groupRow {h : Host} {r : Item} (hr : r ∈ emitUngrouped h) :
    r.isGroupRow = false := by
  unfold emitUngrouped at hr
  split at hr
  · simp at hr
  · rcases List.mem_cons.mp hr with rfl | hr'
    · rfl
    · split at hr'
      · exact isGroupRow_containerRows hr'
      · simp at hr'

lemma emitMember_no_groupRow {g : Group} {h : Host} {r : Item} (hr : r ∈ emitMember g h) :
    r.isGroupRow = false := by
  unfold emitMember at hr
  split at hr
  · simp at hr
  · rcases List.mem_cons.mp hr with rfl | hr'
    · rfl
    · split at hr'
      · exact isGroupRow_containerRows hr'
      · simp at hr'

lemma emitMember_topHost_none {g : Group} {h : Host} {r : Item} (hr : r ∈ emitMember g h) :
    topHost r = none := by
  unfold emitMember at hr
  split at hr
  · simp at hr
  · rcases List.mem_cons.mp hr with rfl | hr'
    · exact topHost_hostRowAt_one h
    · split at hr'
      · exact topHost_containerRows (by decide) hr'
      · simp at hr'

lemma emitGroup_topHost_none {g : Group} {hosts : List Host} {r : Item}
    (hr : r ∈ emitGroup g hosts) : topHost r = none := by
  unfold emitGroup at hr
  rcases List.mem_cons.mp hr with rfl | hr'
  · rfl
  · split at hr'
    · simp at hr'
    · rcases List.mem_flatMap.mp hr' with ⟨h, _, hmem⟩
      exact emitMember_topHost_none hmem

lemma groupPart_topHost_none {groups : List Group} {hosts : List Host} {r : Item}
    (hr : r ∈ groups.flatMap (fun g => emitGroup g hosts)) : topHost r = none := by
  rcases List.mem_flatMap.mp hr with ⟨g, _, hmem⟩
  exact emitGroup_topHost_none hmem

lemma ungroupedPart_no_groupRow {hosts : List Host} {r : Item}
    (hr : r ∈ hosts.flatMap emitUngrouped) : r.isGroupRow = false := by
  rcases List.mem_flatMap.mp hr with ⟨h, _, hmem⟩
  exact emitUngrouped_no_groupRow hmem

lemma filterMap_topHost_containerRows (parent : Host) {i : Nat} (hi : i ≠ 0) :
    (containerRows parent i).filterMap topHost = [] := by
  rw [List.filterMap_eq_nil_iff]
  intro r hr
  exact topHost_containerRows hi hr

lemma filterMap_topHost_ungrouped (hosts : List Host) :
    (hosts.flatMap emitUngrouped).filterMap topHost
      = (hosts.filter (fun h => h.data.groupID == "")).map (reindexHost 0) := by
  induction hosts with
  | nil => rfl
  | cons h t ih =>
    rw [List.flatMap_cons, List.filterMap_append, ih]
    by_cases hg : h.data.groupID = ""
    · have he : emitUngrouped h = hostRowAt 0 h ::
          (if h.data.expanded = true then containerRows h 1 else []) := by
        unfold emitUngrouped
        simp [hg]
      have hzero : List.filterMap topHost
          (if h.data.expanded = true then containerRows h 1 else []) = [] := by
        split
        · exact filterMap_topHost_containerRows h (by decide)
        · rfl
      rw [List.filter_cons_of_pos (by simpa using hg), List.map_cons, he,
        List.filterMap_cons, topHost_hostRowAt_zero, hzero]
      rfl
    · rw [List.filter_cons_of_neg (by simpa using hg)]
      rw [show emitUngrouped h = [] by unfold emitUngrouped; simp [hg]]
      rfl

lemma filterMap_topHost_groupPart (groups : List Group) (hosts : List Host) :
    (groups.flatMap (fun g => emitGroup g hosts)).filterMap topHost = [] := by
  rw [List.filterMap_eq_nil_iff]
  intro r hr
  exact groupPart_topHost_none hr

lemma filter_isGroupRow_emitGroup (g : Group) (hosts : List Host) :
    (emitGroup g hosts).filter Item.isGroupRow = [Item.groupRow g] := by
  unfold emitGroup
  rw [List.filter_cons_of_pos (by rfl)]
  congr 1
  rw [List.filter_eq_nil]
  intro r hr
  split at hr
  · simp at hr
  · rcases List.mem_flatMap.mp hr with ⟨h, _, hmem⟩
    simp [emitMember_no_groupRow hmem]

lemma filter_isGroupRow_flatten (groups : List Group) (hosts : List Host) :
    (flattenHosts groups hosts).filter Item.isGroupRow = groups.map Item.groupRow := by
  unfold flattenHosts
  rw [List.filter_append]
  rw [show (hosts.flatMap emitUngrouped).filter Item.isGroupRow = [] by
    rw [List.filter_eq_nil]; intro r hr; simp [ungroupedPart_no_groupRow hr]]
  rw [List.nil_append]
  induction groups with
  | nil => rfl
  | cons g gs ih =>
    rw [List.flatMap_cons, List.filter_append, filter_isGroupRow_emitGroup, ih]
    rfl

lemma filterMap_indent1_containerRows (parent : Host) :
    (containerRows parent 2).filterMap indent1Host = [] := by
  rw [List.filterMap_eq_nil_iff]
  intro r hr
  rcases mem_containerRows hr with ⟨c, rfl⟩
  simp [indent1Host]

lemma filterMap_indent1_members (g : Group) (hosts : List Host) :
    (hosts.flatMap (emitMember g)).filterMap indent1Host
      = (hosts.filter (fun h => h.data.groupID == g.id)).map (reindexHost 1) := by
  induction hosts with
  | nil => rfl
  | cons h t ih =>
    rw [List.flatMap_cons, List.filterMap_append, ih]
    by_cases hg : h.data.groupID = g.id
    · have he : emitMember g h = hostRowAt 1 h ::
          (if h.data.expanded = true then containerRows h 2 else []) := by
        unfold emitMember
        simp [hg]
      have hzero : List.filterMap indent1Host
          (if h.data.expanded = true then containerRows h 2 else []) = [] := by
        split
        · exact filterMap_indent1_containerRows h
        · rfl
      rw [List.filter_cons_of_pos (by simpa using hg), List.map_cons, he,
        List.filterMap_cons, indent1Host_hostRowAt_one, hzero]
      rfl
    · rw [List.filter_cons_of_neg (by simpa using hg)]
      rw [show emitMember g h = [] by unfold emitMember; simp [hg]]
      rfl

lemma flatMap_filter_of_unused {α β : Type} (p : α → Bool) (f : α → List β) (l : List α)
    (hnil : ∀ x, p x = false → f x = []) : (l.filter p).flatMap f = l.flatMap f := by
  induction l with
  | nil => rfl
  | cons x t ih =>
    by_cases hx : p x = true
    · rw [List.filter_cons_of_pos hx, List.flatMap_cons, List.flatMap_cons, ih]
    · rw [List.filter_cons_of_neg hx, List.flatMap_cons, ih,
        hnil x (Bool.eq_false_iff.mpr hx), List.nil_append]

/-! ## Claim C2: ordering and collapse/expand behavior of the projection -/

/-- C2: the tree projection emits all ungrouped hosts, in stored order,
before any group row; within each expanded group the member hosts appear in
stored `hosts` order; a collapsed group's row is present but is followed by
zero member rows; and an unexpanded host contributes zero container rows
(its emission is just its own row). -/
theorem flattenHosts_projection_order (groups : List Group) (hosts : List Host) :
    ((flattenHosts groups hosts).filterMap topHost
        = (hosts.filter (fun h => h.data.groupID == "")).map (reindexHost 0))
    ∧ (∀ i j r r', (flattenHosts groups hosts).get? i = some r → topHost r ≠ none →
        (flattenHosts groups hosts).get? j = some r' → r'.isGroupRow = true → i < j)
    ∧ ((flattenHosts groups hosts).filter Item.isGroupRow = groups.map Item.groupRow)
    ∧ (∀ g, (emitGroup g hosts).filterMap indent1Host
        = if g.expanded then (hosts.filter (fun h => h.data.groupID == g.id)).map (reindexHost 1)
          else [])
    ∧ (∀ g, g.expanded = false → emitGroup g hosts = [Item.groupRow g])
    ∧ (∀ h : Host, h.data.expanded = false →
        (emitUngrouped h = [] ∨ emitUngrouped h = [hostRowAt 0 h])
        ∧ ∀ g, emitMember g h = [] ∨ emitMember g h = [hostRowAt 1 h]) := by
  refine ⟨?_, ?_, ?_, ?_, ?_, ?_⟩
  · unfold flattenHosts
    rw [List.filterMap_append, filterMap_topHost_ungrouped, filterMap_topHost_groupPart,
      List.append_nil]
  · intro i j r r' hi htop hj hgrow
    set U := hosts.flatMap emitUngrouped with hU
    set G := groups.flatMap (fun g => emitGroup g hosts) with hG
    have hflat : flattenHosts groups hosts = U ++ G := rfl
    rw [hflat] at hi hj
    have hiU : i < U.length := by
      by_contra hge
      push_neg at hge
      rw [List.get?_append_right hge] at hi
      exact htop (groupPart_topHost_none (List.get?_mem hi))
    have hjU : U.length ≤ j := by
      by_contra hlt
      push_neg at hlt
      rw [List.get?_append hlt] at hj
      have := ungroupedPart_no_groupRow (List.get?_mem hj)
      rw [hgrow] at this
      exact Bool.noConfusion this
    omega
  · exact filter_isGroupRow_flatten groups hosts
  · intro g
    unfold emitGroup
    rw [List.filterMap_cons]
    have : indent1Host (Item.groupRow g) = none := rfl
    rw [this]
    cases hx : g.expanded
    · simp
    · simpa using filterMap_indent1_members g hosts
  · intro g hg
    unfold emitGroup
    rw [hg]
    rfl
  · intro h hexp
    constructor
    · unfold emitUngrouped
      rw [hexp]
      by_cases hgid : h.data.groupID = ""
      · right; simp [hgid]
      · left; simp [hgid]
    · intro g
      unfold emitMember
      rw [hexp]
      by_cases hgid : h.data.groupID = g.id
      · right; simp [hgid]
      · left; simp [hgid]

/-- Witness for C2, instantiated at the spec's own worked example: one
collapsed group `g1` and hosts `h1` (member of `g1`) and `h2` (ungrouped):
the only indent-0 row is `h2` and the only group row follows it. -/
theorem flattenHosts_projection_order_witness :
    (flattenHosts [⟨"g1", "prod", false⟩]
        [mkSimpleHost "h1" "web" "g1" false, mkSimpleHost "h2" "db" "" false]).filterMap topHost
      = ([mkSimpleHost "h2" "db" "" false]).map (reindexHost 0) := by
  have h := (flattenHosts_projection_order [⟨"g1", "prod", false⟩]
    [mkSimpleHost "h1" "web" "g1" false, mkSimpleHost "h2" "db" "" false]).1
  rw [h]
  rfl

/-! ## Claim C3: hosts with a dangling group reference -/

/-- C3 counterexample: a host whose group reference matches no group is
omitted from the projection entirely — it does not appear in the ungrouped
bucket (with no groups at all the projection of the lone dangling host is
empty, and with an unrelated group the projection is just that group's
row). -/
theorem flattenHosts_dangling_counterexample :
    flattenHosts [] [danglingHost] = []
    ∧ flattenHosts [⟨"g1", "prod", true⟩] [danglingHost]
        = [Item.groupRow ⟨"g1", "prod", true⟩] := by
  constructor <;> rfl

/-- C3 amended: a host whose group reference matches no existing group
identifier is treated leniently (the projection is total, no error state),
but it is omitted from the projection rather than shown ungrouped: removing
every such host leaves the projected row sequence unchanged. -/
theorem flattenHosts_dangling_omitted (groups : List Group) (hosts : List Host) :
    flattenHosts groups hosts
      = flattenHosts groups (hosts.filter (fun h =>
          h.data.groupID == "" || groups.any (fun g => g.id == h.data.groupID))) := by
  unfold flattenHosts
  congr 1
  · rw [flatMap_filter_of_unused _ _ hosts]
    intro h hp
    unfold emitUngrouped
    have hgid : ¬ h.data.groupID = "" := by
      intro hq
      simp [hq] at hp
    simp [hgid]
  · have main : ∀ gs : List Group, (∀ g, g ∈ gs → g ∈ groups) →
        gs.flatMap (fun g => emitGroup g (hosts.filter (fun h =>
          h.data.groupID == "" || groups.any (fun g => g.id == h.data.groupID))))
        = gs.flatMap (fun g => emitGroup g hosts) := by
      intro gs
      induction gs with
      | nil => intro _; rfl
      | cons g gs ih =>
        intro hsub
        rw [List.flatMap_cons, List.flatMap_cons, ih (fun x hx => hsub x (List.mem_cons_of_mem g hx))]
        congr 1
        unfold emitGroup
        congr 1
        split
        · rfl
        · rw [flatMap_filter_of_unused _ _ hosts]
          intro h hp
          unfold emitMember
          have : ¬ h.data.groupID = g.id := by
            intro hq
            have : groups.any (fun g' => g'.id == h.data.groupID) = true := by
              rw [List.any_eq_true]
              exact ⟨g, hsub g (List.mem_cons_self g gs), by simp [hq]⟩
            simp [this] at hp
          simp [this]
    rw [main groups (fun _ hx => hx)]

/-- Witness for C3's amended theorem at a concrete input: dropping the
dangling host from the host list leaves the projection unchanged. -/
theorem flattenHosts_dangling_omitted_witness :
    flattenHosts [⟨"g1", "prod", true⟩] [danglingHost]
      = flattenHosts [⟨"g1", "prod", true⟩] ([danglingHost].filter (fun h =>
          h.data.groupID == "" || [(⟨"g1", "prod", true⟩ : Group)].any (fun g => g.id == h.data.groupID))) :=
  flattenHosts_dangling_omitted [⟨"g1", "prod", true⟩] [danglingHost]

/-! ## Claim C4: history insertion, dedup and cap -/

/-- C4: recording a connection puts the new entry first; every other
retained entry comes from the old history; no retained entry other than the
new one carries the inserted host id (the older copy is removed); host-id
uniqueness of the history is preserved; the length never exceeds the
50-entry cap; and the result is exactly the newest-first filtered list with
its oldest entries truncated at the cap. -/
theorem recordHistory_spec (now : Int) (id a : String) (history : List HistoryEntry) :
    (recordHistory now id a history).head? = some ⟨id, a, now⟩
    ∧ (∀ e ∈ recordHistory now id a history, e = ⟨id, a, now⟩ ∨ e ∈ history)
    ∧ (∀ e ∈ recordHistory now id a history, e.hostID = id → e = ⟨id, a, now⟩)
    ∧ (history.Pairwise (fun x y => x.hostID ≠ y.hostID) →
        (recordHistory now id a history).Pairwise (fun x y => x.hostID ≠ y.hostID))
    ∧ (recordHistory now id a history).length ≤ maxHistoryEntries
    ∧ recordHistory now id a history
        = ((⟨id, a, now⟩ : HistoryEntry) ::
            history.filter (fun h => h.hostID != id)).take maxHistoryEntries := by
  have hr : recordHistory now id a history
      = ((⟨id, a, now⟩ : HistoryEntry) ::
          history.filter (fun h => h.hostID != id)).take maxHistoryEntries := by
    simp only [recordHistory]
    split
    · rfl
    · rw [List.take_of_length_le (by omega)]
  have hmem : ∀ e ∈ recordHistory now id a history,
      e = ⟨id, a, now⟩ ∨ e ∈ history.filter (fun h => h.hostID != id) := by
    intro e he
    rw [hr] at he
    have := List.take_subset _ _ he
    exact List.mem_cons.mp this
  refine ⟨?_, ?_, ?_, ?_, ?_, hr⟩
  · rw [hr, show maxHistoryEntries = 49 + 1 from rfl, List.take_succ_cons]
    rfl
  · intro e he
    rcases hmem e he with h1 | h2
    · exact Or.inl h1
    · exact Or.inr (List.mem_filter.mp h2).1
  · intro e he heid
    rcases hmem e he with h1 | h2
    · exact h1
    · have := (List.mem_filter.mp h2).2
      rw [heid] at this
      simp at this
  · intro hp
    rw [hr]
    refine List.Pairwise.sublist (List.take_sublist _ _) ?_
    refine List.Pairwise.cons ?_ (hp.filter _)
    intro y hy
    have := (List.mem_filter.mp hy).2
    intro hcontra
    rw [← hcontra] at this
    simp at this
  · rw [hr, List.length_take]
    exact min_le_left _ _

/-- Witness for C4 at a concrete history. -/
theorem recordHistory_spec_witness :
    recordHistory 5 "h1" "web" [⟨"h0", "db", 1⟩, ⟨"h1", "web", 0⟩]
      = ((⟨"h1", "web", 5⟩ : HistoryEntry) ::
          [⟨"h0", "db", 1⟩, ⟨"h1", "web", 0⟩].filter
            (fun h : HistoryEntry => h.hostID != "h1")).take maxHistoryEntries :=
  (recordHistory_spec 5 "h1" "web" [⟨"h0", "db", 1⟩, ⟨"h1", "web", 0⟩]).2.2.2.2.2

/-! ## Claim C5: pruning of orphaned history entries -/

/-- C5 evaluation: rebuilding the history view NEVER prunes the stored
history — the method returns the state unchanged for every input — and at
the repository's own test fixture (one live host `h1`, one orphaned entry
`h-gone`) the orphaned entry both remains in the stored history and is
displayed with the cached alias suffixed `" (deleted)"`, contradicting the
claimed lazy pruning. -/
theorem rebuildHistoryList_keeps_orphans :
    (∀ m : AppState, (rebuildHistoryList m).1 = m)
    ∧ (rebuildHistoryList orphanHistoryState).1.history
        = [⟨"h1", "web", 3⟩, ⟨"h-gone", "old", 2⟩]
    ∧ (rebuildHistoryList orphanHistoryState).2.map (fun h => h.data.hostAlias)
        = ["web", "old (deleted)"] := by
  refine ⟨fun m => rfl, rfl, ?_⟩
  rfl

/-! ## Lemmas for the reorder semantics -/

lemma optAny_groupID_iff {o : Option Host} {gid : String} :
    o.any (fun h => h.data.groupID == gid) = true
      ↔ o.map (fun h => h.data.groupID) = some gid := by
  cases o <;> simp

lemma findHostIndexByID_spec {hosts : List Host} {id : String} :
    ∀ {i : Nat}, findHostIndexByID hosts id = some i →
      ∃ hI : Host, hosts.get? i = some hI ∧ hI.data.id = id := by
  induction hosts with
  | nil => intro i h; simp [findHostIndexByID] at h
  | cons h t ih =>
    intro i hf
    rw [findHostIndexByID] at hf
    split at hf
    case isTrue hid =>
      cases hf
      exact ⟨h, rfl, by simpa using hid⟩
    case isFalse hid =>
      rcases Option.map_eq_some'.mp hf with ⟨j, hj, rfl⟩
      rcases ih hj with ⟨hI, hget, hidI⟩
      exact ⟨hI, by simpa using hget, hidI⟩

lemma findGroupIndexByID_spec {groups : List Group} {id : String} :
    ∀ {i : Nat}, findGroupIndexByID groups id = some i →
      ∃ gI : Group, groups.get? i = some gI ∧ gI.id = id := by
  induction groups with
  | nil => intro i h; simp [findGroupIndexByID] at h
  | cons g t ih =>
    intro i hf
    rw [findGroupIndexByID] at hf
    split at hf
    case isTrue hid =>
      cases hf
      exact ⟨g, rfl, by simpa using hid⟩
    case isFalse hid =>
      rcases Option.map_eq_some'.mp hf with ⟨j, hj, rfl⟩
      rcases ih hj with ⟨gI, hget, hidI⟩
      exact ⟨gI, by simpa using hget, hidI⟩

lemma scanUp_some {hosts : List Host} {gid : String} :
    ∀ {idx n : Nat}, scanUp hosts gid idx = some n →
      n < idx
      ∧ (hosts.get? n).map (fun h => h.data.groupID) = some gid
      ∧ ∀ k, n < k → k < idx →
          (hosts.get? k).map (fun h => h.data.groupID) ≠ some gid := by
  intro idx
  induction idx with
  | zero => intro n h; simp [scanUp] at h
  | succ i ih =>
    intro n hs
    rw [scanUp] at hs
    split at hs
    next hany =>
      cases hs
      exact ⟨Nat.lt_succ_self _, optAny_groupID_iff.mp hany, fun k hk1 hk2 => by omega⟩
    next hany =>
      rcases ih hs with ⟨hlt, hmem, hbet⟩
      refine ⟨Nat.lt_succ_of_lt hlt, hmem, ?_⟩
      intro k hk1 hk2
      rcases Nat.lt_succ_iff_lt_or_eq.mp hk2 with hk | rfl
      · exact hbet k hk1 hk
      · intro hq
        exact hany (optAny_groupID_iff.mpr hq)

lemma scanDown_some {hosts : List Host} {gid : String} :
    ∀ {j n : Nat}, scanDown hosts gid j = some n →
      j ≤ n
      ∧ (hosts.get? n).map (fun h => h.data.groupID) = some gid
      ∧ ∀ k, j ≤ k → k < n →
          (hosts.get? k).map (fun h => h.data.groupID) ≠ some gid := by
  have key : ∀ fuel j n, hosts.length - j ≤ fuel → scanDown hosts gid j = some n →
      j ≤ n
      ∧ (hosts.get? n).map (fun h => h.data.groupID) = some gid
      ∧ ∀ k, j ≤ k → k < n →
          (hosts.get? k).map (fun h => h.data.groupID) ≠ some gid := by
    intro fuel
    induction fuel with
    | zero =>
      intro j n hle hs
      rw [scanDown, dif_neg (by omega)] at hs
      exact absurd hs (by simp)
    | succ f ih =>
      intro j n hle hs
      rw [scanDown] at hs
      by_cases hlt : j < hosts.length
      · rw [dif_pos hlt] at hs
        split at hs
        next hany =>
          cases hs
          exact ⟨le_refl _, optAny_groupID_iff.mp hany, fun k hk1 hk2 => by omega⟩
        next hany =>
          rcases ih (j + 1) n (by omega) hs with ⟨hle2, hmem, hbet⟩
          refine ⟨by omega, hmem, ?_⟩
          intro k hk1 hk2
          rcases eq_or_lt_of_le hk1 with rfl | hk
          · intro hq
            exact hany (optAny_groupID_iff.mpr hq)
          · exact hbet k (by omega) hk2
      · rw [dif_neg hlt] at hs
        exact absurd hs (by simp)
  intro j n hs
  exact key (hosts.length - j) j n (le_refl _) hs

/-! ## Claim C6: move-up / move-down reorder semantics -/

/-- C6: with a succeeding save, a selected group only ever swaps with the
group at the directly adjacent index of the top-level group order (or the
call is a silent no-op), never touching hosts or history; a selected host
only ever swaps with the nearest other host of the same group membership in
the scan direction (nothing with the same membership lies strictly
between), never touching groups or history; and when no same-membership
neighbor exists in the requested direction the operation returns the state
unchanged with no error and without attempting a save. -/
theorem moveItem_reorder_semantics (m : AppState) (d : Int) (hd : d = -1 ∨ d = 1) :
    (∀ g : Group,
      (moveItem m (some (Item.groupRow g)) d none).state.rawHosts = m.rawHosts
      ∧ (moveItem m (some (Item.groupRow g)) d none).state.history = m.history
      ∧ (((moveItem m (some (Item.groupRow g)) d none).state.rawGroups = m.rawGroups
            ∧ (moveItem m (some (Item.groupRow g)) d none).err = none)
          ∨ ∃ i j : Nat, (i : Int) + d = (j : Int) ∧ j < m.rawGroups.length
              ∧ (m.rawGroups.get? i).map Group.id = some g.id
              ∧ (moveItem m (some (Item.groupRow g)) d none).state.rawGroups
                  = swapAt m.rawGroups i j))
    ∧ (∀ h : Host,
      (moveItem m (some (Item.hostRow h)) d none).state.rawGroups = m.rawGroups
      ∧ (moveItem m (some (Item.hostRow h)) d none).state.history = m.history
      ∧ (((moveItem m (some (Item.hostRow h)) d none).state.rawHosts = m.rawHosts
            ∧ (moveItem m (some (Item.hostRow h)) d none).err = none)
          ∨ ∃ i n : Nat,
              (m.rawHosts.get? i).map (fun x => x.data.id) = some h.data.id
              ∧ (m.rawHosts.get? n).map (fun x => x.data.groupID)
                  = (m.rawHosts.get? i).map (fun x => x.data.groupID)
              ∧ (d < 0 → n < i ∧ ∀ k, n < k → k < i →
                  (m.rawHosts.get? k).map (fun x => x.data.groupID)
                    ≠ (m.rawHosts.get? i).map (fun x => x.data.groupID))
              ∧ (0 ≤ d → i < n ∧ ∀ k, i < k → k < n →
                  (m.rawHosts.get? k).map (fun x => x.data.groupID)
                    ≠ (m.rawHosts.get? i).map (fun x => x.data.groupID))
              ∧ (moveItem m (some (Item.hostRow h)) d none).state.rawHosts
                  = swapAt m.rawHosts i n))
    ∧ (∀ (h : Host) (i : Nat), h.data.isContainer = false →
        findHostIndexByID m.rawHosts h.data.id = some i →
        (∀ k, (k < i ∧ d < 0) ∨ (i < k ∧ 0 ≤ d) →
          (m.rawHosts.get? k).map (fun x => x.data.groupID)
            ≠ (m.rawHosts.get? i).map (fun x => x.data.groupID)) →
        moveItem m (some (Item.hostRow h)) d none = ⟨m, none, false⟩) := by
  refine ⟨?_, ?_, ?_⟩
  · -- group selection
    intro g
    cases hfind : findGroupIndexByID m.rawGroups g.id with
    | none => simp [moveItem, hfind]
    | some idx =>
      rcases findGroupIndexByID_spec hfind with ⟨gI, hget, hid⟩
      by_cases hb : ((idx : Int) + d < 0 ∨ (m.rawGroups.length : Int) ≤ (idx : Int) + d)
      · simp [moveItem, hfind, hb]
      · refine ⟨?_, ?_, Or.inr ⟨idx, ((idx : Int) + d).toNat, ?_, ?_, ?_, ?_⟩⟩
        · simp [moveItem, hfind, hb]
        · simp [moveItem, hfind, hb]
        · omega
        · omega
        · rw [hget, Option.map_some', hid]
        · simp [moveItem, hfind, hb]
  · -- host selection
    intro h
    by_cases hc : h.data.isContainer
    · simp [moveItem, hc]
    · cases hfind : findHostIndexByID m.rawHosts h.data.id with
      | none => simp [moveItem, hc, hfind]
      | some idx =>
        rcases findHostIndexByID_spec hfind with ⟨hI, hget, hid⟩
        have hgetE : m.rawHosts[idx]? = some hI := by
          rw [← List.get?_eq_getElem?]; exact hget
        have hgid : (Option.map (fun h => h.data.groupID) m.rawHosts[idx]?).getD ""
            = hI.data.groupID := by rw [hgetE]; rfl
        have hgid2 : (m.rawHosts.get? idx).map (fun x => x.data.groupID)
            = some hI.data.groupID := by rw [hget]; rfl
        rcases hd with rfl | rfl
        · -- direction -1: upward scan
          cases hscan : scanUp m.rawHosts hI.data.groupID idx with
          | none =>
            simp [moveItem, hc, hfind, hgid, hscan]
          | some n =>
            rcases scanUp_some hscan with ⟨hlt, hmem, hbet⟩
            refine ⟨?_, ?_, Or.inr ⟨idx, n, ?_, ?_, ?_, ?_, ?_⟩⟩
            · simp [moveItem, hc, hfind, hgid, hscan]
            · simp [moveItem, hc, hfind, hgid, hscan]
            · rw [hget, Option.map_some', hid]
            · rw [hmem, hgid2]
            · intro _
              refine ⟨hlt, ?_⟩
              intro k hk1 hk2
              rw [hgid2]
              exact hbet k hk1 hk2
            · intro habs; omega
            · simp [moveItem, hc, hfind, hgid, hscan]
        · -- direction +1: downward scan
          cases hscan : scanDown m.rawHosts hI.data.groupID (idx + 1) with
          | none =>
            simp [moveItem, hc, hfind, hgid, hscan]
          | some n =>
            rcases scanDown_some hscan with ⟨hle, hmem, hbet⟩
            refine ⟨?_, ?_, Or.inr ⟨idx, n, ?_, ?_, ?_, ?_, ?_⟩⟩
            · simp [moveItem, hc, hfind, hgid, hscan]
            · simp [moveItem, hc, hfind, hgid, hscan]
            · rw [hget, Option.map_some', hid]
            · rw [hmem, hgid2]
            · intro habs; omega
            · intro _
              refine ⟨by omega, ?_⟩
              intro k hk1 hk2
              rw [hgid2]
              exact hbet k (by omega) hk2
            · simp [moveItem, hc, hfind, hgid, hscan]
  · -- silent no-op when no same-membership neighbor exists in the direction
    intro h i hc hfind hno
    rcases findHostIndexByID_spec hfind with ⟨hI, hget, hid⟩
    have hgetE : m.rawHosts[i]? = some hI := by
      rw [← List.get?_eq_getElem?]; exact hget
    have hgid : (Option.map (fun h => h.data.groupID) m.rawHosts[i]?).getD ""
        = hI.data.groupID := by rw [hgetE]; rfl
    have hgid2 : (m.rawHosts.get? i).map (fun x => x.data.groupID)
        = some hI.data.groupID := by rw [hget]; rfl
    rcases hd with rfl | rfl
    · cases hscan : scanUp m.rawHosts hI.data.groupID i with
      | none => simp [moveItem, hc, hfind, hgid, hscan]
      | some n =>
        rcases scanUp_some hscan with ⟨hlt, hmem, _⟩
        exact absurd (by rw [hmem, hgid2]) (hno n (Or.inl ⟨hlt, by omega⟩))
    · cases hscan : scanDown m.rawHosts hI.data.groupID (i + 1) with
      | none => simp [moveItem, hc, hfind, hgid, hscan]
      | some n =>
        rcases scanDown_some hscan with ⟨hle, hmem, _⟩
        exact absurd (by rw [hmem, hgid2]) (hno n (Or.inr ⟨by omega, by omega⟩))

/-- Witness for C6: moving the lone ungrouped host down is a silent no-op
(its only neighbor below has a different membership). -/
theorem moveItem_reorder_semantics_witness :
    moveItem { rawGroups := [⟨"g1", "prod", true⟩],
               rawHosts := [mkSimpleHost "h2" "db" "" false, mkSimpleHost "h1" "web" "g1" false],
               history := [] }
        (some (Item.hostRow (mkSimpleHost "h2" "db" "" false))) 1 none
      = ⟨{ rawGroups := [⟨"g1", "prod", true⟩],
           rawHosts := [mkSimpleHost "h2" "db" "" false, mkSimpleHost "h1" "web" "g1" false],
           history := [] }, none, false⟩ := by
  refine (moveItem_reorder_semantics _ 1 (Or.inr rfl)).2.2
    (mkSimpleHost "h2" "db" "" false) 0 rfl rfl ?_
  intro k hk
  rcases hk with ⟨hk1, hk2⟩ | ⟨hk1, hk2⟩
  · omega
  · cases k with
    | zero => omega
    | succ k' =>
      cases k' with
      | zero => decide
      | succ k'' => simp [mkSimpleHost]

/-! ## Claim C1: rollback on persistence failure -/

lemma saveFromForm_fail_eq (form : FormState) (selH : Option Host)
    (ngid nid e : String) (m : AppState) :
    saveFromForm form selH ngid nid (some e) m
      = if trimStr form.hostAlias == "" then ⟨m, some "alias is required", false⟩
        else if m.rawHosts.any (fun h =>
            eqFold (trimStr h.data.hostAlias) (trimStr form.hostAlias) &&
            (match selH with
             | none => true
             | some sel => h.data.id != sel.data.id)) then
          ⟨m, some ("alias already exists: " ++ trimStr form.hostAlias), false⟩
        else if !form.groupCustom && form.groupOptions.length > 0 &&
            form.groupOptions.getD form.groupIndex "" == "+ New group..." then
          ⟨m, some "new group selected but name not provided", false⟩
        else ⟨m, some ("failed to save changes: " ++ e), true⟩ := rfl

lemma submitGroupPrompt_fail_eq (action : GroupAction) (targetID nameInput nid e : String)
    (m : AppState) :
    submitGroupPrompt action targetID nameInput nid (some e) m
      = if trimStr nameInput == "" then ⟨m, some "group name is required", false⟩
        else if (match findGroupByName m.rawGroups (trimStr nameInput) with
            | some idx =>
              match action with
              | .rename => !(((m.rawGroups.get? idx).map Group.id).getD "" == targetID)
              | .create => true
            | none => false) then
          ⟨m, some "group name already exists", false⟩
        else ⟨m, some ("failed to save group changes: " ++ e), true⟩ := by
  cases action <;> rfl

/-- C1: for every externally triggered mutation (create/edit/delete host,
create/rename/delete group, reorder, record-history), when the save forced
by the mutation fails the entity model (groups, hosts with their nested
containers, history) after the call equals the model before the call, and
whenever a save was actually attempted the underlying error is surfaced to
the caller. -/
theorem mutation_rollback (cmd : MutationCmd) (m : AppState) (e : String) :
    (applyCmd cmd (some e) m).state = m
    ∧ ((applyCmd cmd (some e) m).saved = true →
        (applyCmd cmd (some e) m).err.isSome = true) := by
  have hform : ∀ (form : FormState) (selH : Option Host) (ngid nid : String),
      (saveFromForm form selH ngid nid (some e) m).state = m
      ∧ ((saveFromForm form selH ngid nid (some e) m).saved = true →
          (saveFromForm form selH ngid nid (some e) m).err.isSome = true) := by
    intro form selH ngid nid
    rw [saveFromForm_fail_eq]
    split
    · exact ⟨rfl, fun h => Bool.noConfusion h⟩
    · split
      · exact ⟨rfl, fun h => Bool.noConfusion h⟩
      · split
        · exact ⟨rfl, fun h => Bool.noConfusion h⟩
        · exact ⟨rfl, fun _ => rfl⟩
  have hgroup : ∀ (action : GroupAction) (targetID nameInput nid : String),
      (submitGroupPrompt action targetID nameInput nid (some e) m).state = m
      ∧ ((submitGroupPrompt action targetID nameInput nid (some e) m).saved = true →
          (submitGroupPrompt action targetID nameInput nid (some e) m).err.isSome = true) := by
    intro action targetID nameInput nid
    rw [submitGroupPrompt_fail_eq]
    split
    · exact ⟨rfl, fun h => Bool.noConfusion h⟩
    · split
      · exact ⟨rfl, fun h => Bool.noConfusion h⟩
      · exact ⟨rfl, fun _ => rfl⟩
  cases cmd with
  | createHost form ngid nid => exact hform form none ngid nid
  | editHost sel form ngid => exact hform form (some sel) ngid ""
  | deleteHost id => exact ⟨rfl, fun _ => rfl⟩
  | createGroup name nid => exact hgroup .create "" name nid
  | renameGroup target name => exact hgroup .rename target name ""
  | deleteGroup id => exact ⟨rfl, fun _ => rfl⟩
  | move sel d =>
    simp only [applyCmd]
    cases sel with
    | none => simp [moveItem]
    | some it =>
      cases it with
      | groupRow g =>
        cases hfind : findGroupIndexByID m.rawGroups g.id with
        | none => simp [moveItem, hfind]
        | some idx =>
          by_cases hb : ((idx : Int) + d < 0 ∨ (m.rawGroups.length : Int) ≤ (idx : Int) + d)
          · simp [moveItem, hfind, hb]
          · simp [moveItem, hfind, hb]
      | hostRow hh =>
        by_cases hcont : hh.data.isContainer
        · simp [moveItem, hcont]
        · cases hfind : findHostIndexByID m.rawHosts hh.data.id with
          | none => simp [moveItem, hcont, hfind]
          | some idx =>
            simp only [moveItem, hcont, hfind]
            repeat' split
            all_goals simp
  | recordConnection id a now => simp [applyCmd, recordConnectionOp]

/-- Witness for C1: a concrete host deletion whose save fails leaves the
concrete state untouched and surfaces an error. -/
theorem mutation_rollback_witness :
    (applyCmd (.deleteHost "h1") (some "disk full") orphanHistoryState).state
        = orphanHistoryState
    ∧ ((applyCmd (.deleteHost "h1") (some "disk full") orphanHistoryState).saved = true →
        (applyCmd (.deleteHost "h1") (some "disk full") orphanHistoryState).err.isSome = true) :=
  mutation_rollback (.deleteHost "h1") orphanHistoryState "disk full"

/-! ## Claim C7: malformed bytes versus missing file -/

/-- C7: bytes that decode under neither the (versioned or unversioned)
document shape nor the legacy bare host-list shape yield the invalid-format
error with empty data substituted for no default — both when read from the
canonical path and from the legacy path — whereas a genuinely missing file
(both paths absent) yields no error and the seeded default state with the
single localhost entry. -/
theorem loadConfig_missing_vs_malformed
    (decodeCfg : String → Option ConfigFile) (decodeHostList : String → Option (List Host))
    (lookupSecret : String → Option String) (saveResult : Option String) (freshID : String)
    (contents : String) (legacyFile : FileRead)
    (h1 : decodeCfg contents = none) (h2 : decodeHostList contents = none) :
    loadConfig decodeCfg decodeHostList lookupSecret saveResult freshID (.ok contents) legacyFile
        = ⟨[], [], [], some "invalid config format"⟩
    ∧ loadConfig decodeCfg decodeHostList lookupSecret saveResult freshID .notExist (.ok contents)
        = ⟨[], [], [], some "invalid config format"⟩
    ∧ loadConfig decodeCfg decodeHostList lookupSecret saveResult freshID .notExist .notExist
        = ⟨[], [defaultLocalhost freshID], [], none⟩ := by
  refine ⟨?_, ?_, rfl⟩ <;>
    simp [loadConfig, loadConfigBytes, loadConfigHostList, h1, h2]

/-- Witness for C7 with concrete undecodable bytes. -/
theorem loadConfig_missing_vs_malformed_witness :
    loadConfig (fun _ => none) (fun _ => none) (fun _ => none) none "id0"
        (.ok "garbage") .notExist
        = ⟨[], [], [], some "invalid config format"⟩
    ∧ loadConfig (fun _ => none) (fun _ => none) (fun _ => none) none "id0"
        .notExist (.ok "garbage")
        = ⟨[], [], [], some "invalid config format"⟩
    ∧ loadConfig (fun _ => none) (fun _ => none) (fun _ => none) none "id0"
        .notExist .notExist
        = ⟨[], [defaultLocalhost "id0"], [], none⟩ :=
  loadConfig_missing_vs_malformed (fun _ => none) (fun _ => none) (fun _ => none) none "id0"
    "garbage" .notExist rfl rfl

/-! ## Claim C10: secret scrubbing under the store-nothing policy -/

mutual
theorem sanitizeHost_noPersist (storeOk : String → String → Bool) (h : Host) :
    sanitizeHostForSave false storeOk h = scrubHost h := by
  match h with
  | .mk d cs =>
    simp [sanitizeHostForSave, scrubHost, sanitizeHosts_noPersist storeOk cs]
theorem sanitizeHosts_noPersist (storeOk : String → String → Bool) (l : List Host) :
    sanitizeHostsForSave false storeOk l = scrubHosts l := by
  match l with
  | [] => rfl
  | h :: t =>
    simp [sanitizeHostsForSave, scrubHosts, sanitizeHost_noPersist storeOk h,
      sanitizeHosts_noPersist storeOk t]
end

mutual
theorem scrubHost_cleared (h : Host) :
    allHostsB (fun d => d.password == "" && d.passwordRef == "") (scrubHost h) = true := by
  match h with
  | .mk d cs => simp [scrubHost, allHostsB, scrubHosts_cleared cs]
theorem scrubHosts_cleared (l : List Host) :
    allHostsListB (fun d => d.password == "" && d.passwordRef == "") (scrubHosts l) = true := by
  match l with
  | [] => rfl
  | h :: t =>
    simp [scrubHosts, allHostsListB, scrubHost_cleared h, scrubHosts_cleared t]
end

/-- C10: when the persistence policy disables password storage, the
sanitized copy written by a save is exactly the input hosts with password
and external-secret reference emptied at every nesting depth and nothing
else changed (so the pure sanitizing pass leaves the in-memory hosts, which
it only copies, intact), and every host of the copy — including every
nested container — carries an empty password and an empty reference. -/
theorem sanitizeHostsForSave_disabled_policy
    (envPrimary envLegacy : String) (storeOk : String → String → Bool) (hosts : List Host)
    (hpol : shouldPersistPassword envPrimary envLegacy = false) :
    sanitizeHostsForSave (shouldPersistPassword envPrimary envLegacy) storeOk hosts
        = scrubHosts hosts
    ∧ allHostsListB (fun d => d.password == "" && d.passwordRef == "")
        (sanitizeHostsForSave (shouldPersistPassword envPrimary envLegacy) storeOk hosts)
        = true := by
  rw [hpol]
  exact ⟨sanitizeHosts_noPersist storeOk hosts, by
    rw [sanitizeHosts_noPersist]
    exact scrubHosts_cleared hosts⟩

/-- Witness for C10: with `ASSHO_STORE_PASSWORD=0` the nested example is
scrubbed at both depths. -/
theorem sanitizeHostsForSave_disabled_policy_witness :
    sanitizeHostsForSave (shouldPersistPassword "0" "") (fun _ _ => true) [secretHost]
        = scrubHosts [secretHost]
    ∧ allHostsListB (fun d => d.password == "" && d.passwordRef == "")
        (sanitizeHostsForSave (shouldPersistPassword "0" "") (fun _ _ => true) [secretHost])
        = true :=
  sanitizeHostsForSave_disabled_policy "0" "" (fun _ _ => true) [secretHost] (by decide)

/-! ## Lemmas for the SSH-config parser -/

lemma lineKeyword_some {l kw : String} (h : lineKeyword l = some kw) :
    (trimStr l == "" || startsWithHash (trimStr l)) = false
    ∧ lowerStr (splitDirective (trimStr l)).1 = kw := by
  simp only [lineKeyword] at h
  split at h
  next hcond => exact absurd h (by simp)
  next hcond =>
    refine ⟨by simpa using hcond, ?_⟩
    injection h

lemma lineStep_of_keyword_none {st : ParseState} {l : String} (h : lineKeyword l = none) :
    lineStep st l = st := by
  simp only [lineKeyword] at h
  split at h
  next hcond =>
    simp only [lineStep]
    rw [if_pos hcond]
  next hcond => exact absurd h (by simp)

lemma lineStep_match {st : ParseState} {l : String} (h : lineKeyword l = some "match") :
    lineStep st l = ⟨st.blocks ++ flushBlock st.current, none, true⟩ := by
  obtain ⟨hcond, hkw⟩ := lineKeyword_some h
  simp only [lineStep]
  rw [if_neg (by simp [hcond]), if_pos (by simp [hkw])]

lemma lineStep_host {st : ParseState} {l : String} (h : lineKeyword l = some "host") :
    lineStep st l =
      (if ((fields (splitDirective (trimStr l)).2).filter (fun x => !isWildcard x)).isEmpty
       then ⟨st.blocks ++ flushBlock st.current, none, false⟩
       else ⟨st.blocks ++ flushBlock st.current,
             some ⟨(fields (splitDirective (trimStr l)).2).filter (fun x => !isWildcard x),
                   "", "", "", ""⟩, false⟩) := by
  obtain ⟨hcond, hkw⟩ := lineKeyword_some h
  simp only [lineStep]
  rw [if_neg (by simp [hcond]), if_neg (by simp [hkw]), if_pos (by simp [hkw])]

lemma lineStep_inMatch {st : ParseState} (hin : st.inMatch = true) (hcur : st.current = none)
    {l : String} (hl : lineKeyword l ≠ some "host") : lineStep st l = st := by
  cases hk : lineKeyword l with
  | none => exact lineStep_of_keyword_none hk
  | some kw =>
    obtain ⟨hcond, hkw⟩ := lineKeyword_some hk
    obtain ⟨bl, cur, im⟩ := st
    dsimp at hin hcur
    subst hin
    subst hcur
    by_cases hm : kw = "match"
    · subst hm
      rw [lineStep_match hk]
      simp [flushBlock]
    · have hh : ¬ kw = "host" := fun hq => hl (by rw [hk, hq])
      simp only [lineStep]
      rw [if_neg (by simp [hcond]), if_neg (by simp [hkw, hm]), if_neg (by simp [hkw, hh])]
      simp

lemma processLines_inMatch {st : ParseState} (hin : st.inMatch = true)
    (hcur : st.current = none) {lines : List String}
    (hno : ∀ l ∈ lines, lineKeyword l ≠ some "host") : processLines st lines = st := by
  induction lines with
  | nil => rfl
  | cons l rest ih =>
    rw [processLines, lineStep_inMatch hin hcur (hno l (List.mem_cons_self l rest))]
    exact ih (fun x hx => hno x (List.mem_cons_of_mem l hx))

lemma filter_no_wildcard (xs : List String) :
    ∀ a ∈ xs.filter (fun x => !isWildcard x), isWildcard a = false := by
  intro a ha
  have := (List.mem_filter.mp ha).2
  simpa using this

lemma lineStep_preserves_stateOK {st : ParseState} (hOK : stateOK st) (l : String) :
    stateOK (lineStep st l) := by
  obtain ⟨hblocks, hcur⟩ := hOK
  have hflush : ∀ b ∈ st.blocks ++ flushBlock st.current, blockOK b := by
    intro b hb
    rcases List.mem_append.mp hb with hb | hb
    · exact hblocks b hb
    · cases hc : st.current with
      | none => rw [hc] at hb; simp [flushBlock] at hb
      | some c =>
        rw [hc] at hb
        simp only [flushBlock, List.mem_singleton] at hb
        subst hb
        exact hcur b hc
  cases hk : lineKeyword l with
  | none =>
    rw [lineStep_of_keyword_none hk]
    exact ⟨hblocks, hcur⟩
  | some kw =>
    obtain ⟨hcond, hkw⟩ := lineKeyword_some hk
    by_cases hm : kw = "match"
    · subst hm
      rw [lineStep_match hk]
      exact ⟨hflush, by intro b hb; simp at hb⟩
    · by_cases hh : kw = "host"
      · subst hh
        rw [lineStep_host hk]
        split
        · exact ⟨hflush, by intro b hb; simp at hb⟩
        next hne =>
          refine ⟨hflush, ?_⟩
          intro b hb
          injection hb with hb
          subst hb
          refine ⟨by simpa using hne, filter_no_wildcard _⟩
      · -- a key-value (or unknown) line: blocks unchanged, aliases unchanged
        simp only [lineStep]
        rw [if_neg (by simp [hcond]), if_neg (by simp [hkw, hm]), if_neg (by simp [hkw, hh])]
        split
        · exact ⟨hblocks, hcur⟩
        · cases hc : st.current with
          | none =>
            dsimp only
            exact ⟨hblocks, hcur⟩
          | some c =>
            have hcOK : blockOK c := hcur c hc
            have hgen : ∀ c' : HostBlock, c'.aliases = c.aliases →
                stateOK { st with current := some c' } := by
              intro c' hal
              refine ⟨hblocks, ?_⟩
              intro b hb
              injection hb with hb
              subst hb
              rw [blockOK, hal]
              exact hcOK
            dsimp only
            split
            · exact hgen _ rfl
            · split
              · exact hgen _ rfl
              · split
                · exact hgen _ rfl
                · split
                  · exact hgen _ rfl
                  · exact ⟨hblocks, hcur⟩

lemma processLines_preserves_stateOK {st : ParseState} (hOK : stateOK st)
    (lines : List String) : stateOK (processLines st lines) := by
  induction lines generalizing st with
  | nil => exact hOK
  | cons l rest ih =>
    rw [processLines]
    exact ih (lineStep_preserves_stateOK hOK l)

lemma finishParse_blockOK {input : List String} {b : HostBlock}
    (hb : b ∈ finishParse (processLines ⟨[], none, false⟩ input)) : blockOK b := by
  have hOK : stateOK (processLines ⟨[], none, false⟩ input) :=
    processLines_preserves_stateOK ⟨by intro b hb; simp at hb, by intro b hb; simp at hb⟩ input
  obtain ⟨hblocks, hcur⟩ := hOK
  unfold finishParse at hb
  rcases List.mem_append.mp hb with hb | hb
  · exact hblocks b hb
  · cases hc : (processLines ⟨[], none, false⟩ input).current with
    | none => rw [hc] at hb; simp [flushBlock] at hb
    | some c =>
      rw [hc] at hb
      simp only [flushBlock, List.mem_singleton] at hb
      subst hb
      exact hcur b hc

lemma enumFrom_map_snd {α β : Type} (g : α → β) :
    ∀ (n : Nat) (l : List α), (List.enumFrom n l).map (fun p => g p.2) = l.map g := by
  intro n l
  induction l generalizing n with
  | nil => rfl
  | cons x t ih => simp [List.enumFrom, ih]

lemma enum_map_snd {α β : Type} (g : α → β) (l : List α) :
    l.enum.map (fun p => g p.2) = l.map g := by
  show (List.enumFrom 0 l).map (fun p => g p.2) = l.map g
  exact enumFrom_map_snd g 0 l

lemma blocksToHosts_fields (newID : Nat → String) (blocks : List HostBlock) :
    (blocksToHosts newID blocks).map (fun h =>
        (h.data.hostAlias, h.data.hostname, h.data.user, h.data.port, h.data.identityFile))
      = blocks.flatMap (fun b => b.aliases.map (fun a =>
          (a, (if b.hostname == "" then a else b.hostname), b.user,
           (if b.port == "" then "22" else b.port), b.identity))) := by
  unfold blocksToHosts
  rw [List.map_map]
  refine Eq.trans (enum_map_snd (fun q : String × HostBlock =>
      (q.1, (if q.2.hostname == "" then q.1 else q.2.hostname), q.2.user,
       (if q.2.port == "" then "22" else q.2.port), q.2.identity)) _) ?_
  rw [List.map_flatMap]
  simp only [List.map_map]
  rfl

/-! ## Claim C8: SSH-config parsing semantics -/

/-- C8: a Match directive flushes and terminates the current host block and
switches the scanner into skip mode; in skip mode every line up to the next
Host directive leaves the scanner state unchanged; a Host directive drops
the glob aliases from its alias list and opens no block when every alias
was a glob; consequently every block of a full parse has at least one
surviving alias and none that is a glob; and the conversion to Host records
yields one record per alias sharing the block's settings, with the alias
standing in for a missing address and port 22 for a missing port. -/
theorem parseSSHConfig_directive_semantics (s : ParseState) (lines : List String)
    (hin : s.inMatch = true) (hcur : s.current = none)
    (hnohost : ∀ l ∈ lines, lineKeyword l ≠ some "host") :
    (∀ (st : ParseState) (l : String), lineKeyword l = some "match" →
        lineStep st l = ⟨st.blocks ++ flushBlock st.current, none, true⟩)
    ∧ processLines s lines = s
    ∧ (∀ (st : ParseState) (l : String), lineKeyword l = some "host" →
        (lineStep st l).blocks = st.blocks ++ flushBlock st.current
        ∧ (lineStep st l).inMatch = false
        ∧ (lineStep st l).current =
            (if ((fields (splitDirective (trimStr l)).2).filter (fun x => !isWildcard x)).isEmpty
             then none
             else some ⟨(fields (splitDirective (trimStr l)).2).filter (fun x => !isWildcard x),
                        "", "", "", ""⟩))
    ∧ (∀ (input : List String) (b : HostBlock),
        b ∈ finishParse (processLines ⟨[], none, false⟩ input) →
        b.aliases ≠ [] ∧ ∀ a ∈ b.aliases, isWildcard a = false)
    ∧ (∀ (newID : Nat → String) (blocks : List HostBlock),
        (blocksToHosts newID blocks).map (fun h =>
            (h.data.hostAlias, h.data.hostname, h.data.user, h.data.port, h.data.identityFile))
          = blocks.flatMap (fun b => b.aliases.map (fun a =>
              (a, (if b.hostname == "" then a else b.hostname), b.user,
               (if b.port == "" then "22" else b.port), b.identity)))) := by
  refine ⟨?_, processLines_inMatch hin hcur hnohost, ?_, ?_, ?_⟩
  · intro st l hl
    exact lineStep_match hl
  · intro st l hl
    rw [lineStep_host hl]
    split <;> exact ⟨rfl, rfl, rfl⟩
  · intro input b hb
    exact finishParse_blockOK hb
  · intro newID blocks
    exact blocksToHosts_fields newID blocks

/-- Witness for C8: a parser in skip mode ignores a key-value line, checked
on a concrete state and line. -/
theorem parseSSHConfig_directive_semantics_witness :
    processLines ⟨[⟨["a"], "", "", "", ""⟩], none, true⟩ ["  User root", "Port 2222"]
      = ⟨[⟨["a"], "", "", "", ""⟩], none, true⟩ :=
  (parseSSHConfig_directive_semantics ⟨[⟨["a"], "", "", "", ""⟩], none, true⟩
    ["  User root", "Port 2222"] rfl rfl (by decide)).2.1

/-! ## Claim C9: idempotence of the import against the current host set -/

lemma parse_importKeys_indep (newID1 newID2 : Nat → String) (lines : List String) :
    (parseSSHConfig newID1 lines).map importKey
      = (parseSSHConfig newID2 lines).map importKey := by
  unfold parseSSHConfig blocksToHosts
  rw [List.map_map, List.map_map]
  refine Eq.trans (enum_map_snd (fun q : String × HostBlock => lowerStr (trimStr q.1)) _) ?_
  exact (enum_map_snd (fun q : String × HostBlock => lowerStr (trimStr q.1)) _).symm

lemma importLoop_all_skipped (keys : List String) (parsed : List Host)
    (hall : ∀ h ∈ parsed, keys.contains (importKey h) = true) :
    importLoop keys parsed = ([], parsed.length) := by
  induction parsed with
  | nil => rfl
  | cons p t ih =>
    rw [importLoop, if_pos (hall p (List.mem_cons_self p t))]
    simp [ih (fun x hx => hall x (List.mem_cons_of_mem p hx))]

lemma importLoop_key_mem (keys : List String) (parsed : List Host) (h : Host)
    (hm : h ∈ parsed) :
    keys.contains (importKey h) = true
    ∨ importKey h ∈ (importLoop keys parsed).1.map importKey := by
  induction parsed generalizing keys with
  | nil => simp at hm
  | cons p t ih =>
    by_cases hc : keys.contains (importKey p) = true
    · rcases List.mem_cons.mp hm with rfl | hmem
      · exact Or.inl hc
      · rcases ih keys hmem with hl | hr
        · exact Or.inl hl
        · right
          simp only [importLoop, hc, eq_self_iff_true, if_true]
          exact hr
    · have hcf : keys.contains (importKey p) = false := Bool.eq_false_iff.mpr hc
      rcases List.mem_cons.mp hm with rfl | hmem
      · right
        have hcm : importKey h ∉ keys := by simpa using hc
        simp [importLoop, hcm]
      · rcases ih (importKey p :: keys) hmem with hl | hr
        · by_cases heq : importKey h = importKey p
          · right
            have hcm : importKey p ∉ keys := by simpa using hc
            simp [importLoop, hcm, heq]
          · left
            have hl2 : importKey h = importKey p ∨ importKey h ∈ keys := by
              simpa [List.contains_cons] using hl
            rcases hl2 with hq | hq
            · exact absurd hq heq
            · simpa using hq
        · right
          simp only [importLoop, hcf, Bool.false_eq_true, if_false, List.map_cons,
            List.mem_cons]
          exact Or.inr hr

/-- C9: re-importing the same external document immediately after an import
whose results were appended to the host set imports nothing: every parsed
host is skipped by the case-insensitive alias dedup (robustly to the random
ids drawn by each parse), and the skipped count equals the number of parsed
hosts. -/
theorem importSSHConfig_idempotent (newID1 newID2 : Nat → String) (lines : List String)
    (existing : List Host) :
    importSSHConfig
        (existing ++ (importSSHConfig existing (parseSSHConfig newID1 lines)).1)
        (parseSSHConfig newID2 lines)
      = ([], (parseSSHConfig newID2 lines).length) := by
  unfold importSSHConfig
  apply importLoop_all_skipped
  intro h hmem
  have hkeys := parse_importKeys_indep newID2 newID1 lines
  have hmem1 : importKey h ∈ (parseSSHConfig newID1 lines).map importKey := by
    rw [← hkeys]
    exact List.mem_map_of_mem importKey hmem
  rcases List.mem_map.mp hmem1 with ⟨h', hh', hkey⟩
  rcases importLoop_key_mem (existing.map importKey) (parseSSHConfig newID1 lines) h' hh'
    with hl | hr
  · rw [← hkey]
    have hmm : importKey h'
        ∈ (existing ++ (importSSHConfig existing (parseSSHConfig newID1 lines)).1).map
            importKey := by
      rw [List.map_append]
      refine List.mem_append.mpr (Or.inl ?_)
      simpa using hl
    simpa using hmm
  · rw [← hkey]
    have hmm : importKey h'
        ∈ (existing ++ (importSSHConfig existing (parseSSHConfig newID1 lines)).1).map
            importKey := by
      rw [List.map_append]
      refine List.mem_append.mpr (Or.inr ?_)
      simpa [importSSHConfig] using hr
    simpa using hmm

/-- Witness for C9 at a one-block document. -/
theorem importSSHConfig_idempotent_witness :
    importSSHConfig
        ([] ++ (importSSHConfig [] (parseSSHConfig (fun _ => "i") ["Host foo"])).1)
        (parseSSHConfig (fun _ => "j") ["Host foo"])
      = ([], (parseSSHConfig (fun _ => "j") ["Host foo"]).length) :=
  importSSHConfig_idempotent (fun _ => "i") (fun _ => "j") ["Host foo"] []

end Assho
